import Mathlib

/-!
Shallow embedding of `src/cache.ts` (glob caching / fast-path module).

Modelling choices:
* JavaScript runtime values are the inductive `JSVal`; `typeof` classification
  and truthiness are modelled by `jsTypeIsObjectOrFunction` and `jsTruthy`
  (numbers are modelled as `Int`; `NaN` is not modelled, no claim depends on it).
* JS objects used as option bags are association lists `Obj`; `Object.keys`
  is `objKeys` (insertion order), property access is `vlookup` (absent keys
  read as `undefined`).
* JS arrays of strings are mutable, so they are modelled by references into an
  explicit heap (`Heap`, `readRef`, `writeRef`); `[...results]` cloning is an
  allocation of a fresh cell.
* `Array.prototype.sort()` and `Object.keys(...).sort()` are `sortStr`
  (insertion sort by `≤` on `String`; any total order gives the same theorems,
  the claims never depend on the exact collation).
* `JSON.stringify` is rendered by `renderObj`/`jsonQuote`; keys with
  `undefined` values are dropped as in JS. Escaping of control characters is
  omitted (no claim depends on it).
* `Map` tables are association lists with overwrite-on-insert; `Map.set` is
  cons plus removal of the old binding, `Map.delete` is a filter.
* `Date.now()` is an explicit `now : Nat` argument threaded by the caller.
* Exceptions from the external `Minimatch` constructor are modelled by a
  parameter `compileErr` giving, for each (pattern, options), the error it
  throws, or `none` if compilation succeeds; a successful compilation
  allocates a fresh matcher identity (`nextId`), so object identity of cached
  matchers is observable.
-/

namespace GlobCache

/-- JavaScript runtime values occurring as option-bag fields and stat results. -/
inductive JSVal where
  | vNull
  | vUndefined
  | vBool (b : Bool)
  | vNum (n : Int)
  | vStr (s : String)
  | vObj (id : Nat)
  | vFunc (id : Nat)
  deriving DecidableEq, Repr

/-- `typeof v === 'object' || typeof v === 'function'`.
Note `typeof null === 'object'` in JavaScript. -/
def jsTypeIsObjectOrFunction : JSVal → Bool
  | .vNull => true
  | .vObj _ => true
  | .vFunc _ => true
  | _ => false

/-- The filter used for cache keys: `typeof val !== 'object' && typeof val !== 'function'`. -/
def isSerializable (v : JSVal) : Bool :=
  !jsTypeIsObjectOrFunction v

/-- JavaScript truthiness of a `JSVal`. -/
def jsTruthy : JSVal → Bool
  | .vNull => false
  | .vUndefined => false
  | .vBool b => b
  | .vNum n => n != 0
  | .vStr s => s != ""
  | .vObj _ => true
  | .vFunc _ => true

/-- An options bag: fields in insertion order. -/
abbrev Obj : Type := List (String × JSVal)

/-- `Object.keys o` (insertion order). -/
def objKeys (o : Obj) : List String := o.map (·.1)

/-- Well-formed JS object: property names are distinct. -/
def NodupKeys (o : Obj) : Prop := (objKeys o).Nodup

/-- Property access `o[k]`; an absent property reads as `undefined`. -/
def vlookup (o : Obj) (k : String) : JSVal :=
  match o.find? (fun e => e.1 == k) with
  | some e => e.2
  | none => .vUndefined

/-- Lexicographic comparison of character lists (executable). JS compares
strings by UTF-16 code units; for the claims proved here any total order on
strings gives the same theorems. -/
def lexLe : List Char → List Char → Bool
  | [], _ => true
  | _ :: _, [] => false
  | a :: as, b :: bs => if a < b then true else if b < a then false else lexLe as bs

/-- String comparison used by `Array.prototype.sort()` on strings. -/
def strLe (a b : String) : Prop := lexLe a.data b.data = true

instance : DecidableRel strLe := fun a b =>
  inferInstanceAs (Decidable (lexLe a.data b.data = true))

/-- `Array.prototype.sort()` respectively `Object.keys(...).sort()`:
a comparison sort of strings. -/
def sortStr (l : List String) : List String :=
  l.insertionSort strLe

/-- Escape of one character inside a JSON string literal. -/
def escChar (c : Char) : String :=
  if c = '"' then "\\\"" else if c = '\\' then "\\\\" else String.singleton c

/-- `JSON.stringify` of a string value. -/
def jsonQuote (s : String) : String :=
  "\"" ++ String.join (s.data.map escChar) ++ "\""

/-- `JSON.stringify` of a primitive value stored in a key projection. -/
def renderJSVal : JSVal → String
  | .vNull => "null"
  | .vUndefined => "undefined"
  | .vBool true => "true"
  | .vBool false => "false"
  | .vNum n => toString n
  | .vStr s => jsonQuote s
  | .vObj _ => "\x7b\x7d"
  | .vFunc _ => "function"

/-- One `"key":value` field of a JSON object; a field whose value is
`undefined` is dropped by `JSON.stringify`. -/
def renderField (e : String × JSVal) : Option String :=
  match e.2 with
  | .vUndefined => none
  | v => some (jsonQuote e.1 ++ ":" ++ renderJSVal v)

/-- `JSON.stringify` of a flat object given as a field list. -/
def renderObj (fields : List (String × JSVal)) : String :=
  "\x7b" ++ String.intercalate "," (fields.filterMap renderField) ++ "\x7d"

/-- The serializable projection computed in `getCachedPattern`:
`Object.keys(options).filter(serializable value).sort().reduce(pick)`. -/
def serializableProjection (o : Obj) : List (String × JSVal) :=
  (sortStr ((objKeys o).filter (fun k => isSerializable (vlookup o k)))).map
    (fun k => (k, vlookup o k))

/-- The pattern-cache key: `JSON.stringify({ pattern, options: serializableOpts })`. -/
def patternCacheKey (pattern : String) (options : Obj) : String :=
  "\x7b\"pattern\":" ++ jsonQuote pattern ++ ",\"options\":"
    ++ renderObj (serializableProjection options) ++ "\x7d"

/-- Pattern cache state: the `patternCache` map (key ↦ matcher identity) plus
the allocator for fresh `Minimatch` identities. -/
structure PatState where
  entries : List (String × Nat)
  nextId : Nat
  deriving DecidableEq, Repr

/-- `getPatternCacheSize()`. -/
def getPatternCacheSize (st : PatState) : Nat := st.entries.length

/-- `getCachedPattern(pattern, options)`.
`compileErr` models the external `new Minimatch(pattern, options)` call:
`some e` means the constructor throws `e`, `none` means it succeeds (the
result being a fresh matcher identity). On a throw nothing is stored, the
error propagates, and the state is returned unchanged. -/
def getCachedPattern (compileErr : String → Obj → Option String)
    (st : PatState) (pattern : String) (options : Obj) :
    Except String Nat × PatState :=
  match st.entries.find? (fun e => e.1 == patternCacheKey pattern options) with
  | some e => (.ok e.2, st)
  | none =>
    match compileErr pattern options with
    | some err => (.error err, st)
    | none =>
      (.ok st.nextId,
       ⟨(patternCacheKey pattern options, st.nextId) :: st.entries,
        st.nextId + 1⟩)

/-- A heap of mutable string arrays; a JS array value is a reference (index). -/
abbrev Heap : Type := List (List String)

/-- Dereference an array. -/
def readRef (h : Heap) (r : Nat) : List String := h.getD r []

/-- In-place mutation of an array. -/
def writeRef (h : Heap) (r : Nat) (v : List String) : Heap := h.set r v

/-- Result cache state: the heap of string arrays plus the `resultCache`
map, each entry `(key, reference to results array, timestamp)`. -/
structure RCState where
  heap : Heap
  entries : List (String × Nat × Nat)

/-- `DEFAULT_TTL` (milliseconds). -/
def DEFAULT_TTL : Nat := 5000

/-- `getResultCacheSize()`. -/
def getResultCacheSize (st : RCState) : Nat := st.entries.length

/-- Well-formed result cache (image of a JS `Map`): keys are distinct. -/
def RCWF (st : RCState) : Prop := (st.entries.map (·.1)).Nodup

/-- `setCachedResults(cacheKey, results)` at instant `now`, where `r` is the
caller's array reference: stores `[...results]`, a freshly allocated clone. -/
def setCachedResults (st : RCState) (cacheKey : String) (r : Nat) (now : Nat) :
    RCState :=
  { heap := st.heap ++ [readRef st.heap r],
    entries := (cacheKey, st.heap.length, now)
      :: st.entries.filter (fun e => !(e.1 == cacheKey)) }

/-- `getCachedResults(cacheKey, ttl)` at instant `now`. Returns the stored
array reference itself (`cached.results`, no copy on read); an entry older
than `ttl` is deleted and `null` (here `none`) is returned. -/
def getCachedResults (st : RCState) (cacheKey : String) (ttl : Nat) (now : Nat) :
    Option Nat × RCState :=
  match st.entries.find? (fun e => e.1 == cacheKey) with
  | none => (none, st)
  | some e =>
    if now - e.2.2 > ttl then
      (none, { st with entries := st.entries.filter (fun e2 => !(e2.1 == cacheKey)) })
    else
      (some e.2.1, st)

/-- `getCachedResults` observed at the level of array contents. -/
def getCachedResultsVal (st : RCState) (cacheKey : String) (ttl : Nat)
    (now : Nat) : Option (List String) × RCState :=
  let out := getCachedResults st cacheKey ttl now
  (out.1.map (readRef out.2.heap), out.2)

/-- The serializable projection computed in `createCacheKey`:
`Object.keys(options).sort()`, then the reduce skips object / function
typed values. -/
def resultProjection (o : Obj) : List (String × JSVal) :=
  (sortStr (objKeys o)).filterMap
    (fun k => if isSerializable (vlookup o k) then some (k, vlookup o k) else none)

/-- `JSON.stringify({ patterns, cwd, opts })`. -/
def createCacheKeyString (patterns : String) (cwd : String) (options : Obj) :
    String :=
  "\x7b\"patterns\":" ++ jsonQuote patterns ++ ",\"cwd\":" ++ jsonQuote cwd
    ++ ",\"opts\":" ++ renderObj (resultProjection options) ++ "\x7d"

/-- The key `createCacheKey` computes for an array pattern whose current
contents are `pats`: `pattern.sort().join('|')` combined with `cwd` and the
serializable options. -/
def createCacheKeyOfList (pats : List String) (cwd : String) (options : Obj) :
    String :=
  createCacheKeyString (String.intercalate "|" (sortStr pats)) cwd options

/-- `createCacheKey(pattern, cwd, options)` for an array argument: `r` is the
caller's array reference. `pattern.sort()` sorts the caller's array IN PLACE,
so besides the key the call produces an updated heap. -/
def createCacheKeyArr (h : Heap) (r : Nat) (cwd : String) (options : Obj) :
    String × Heap :=
  (createCacheKeyOfList (readRef h r) cwd options,
   writeRef h r (sortStr (readRef h r)))

/-- `createCacheKey(pattern, cwd, options)` for a string argument. -/
def createCacheKeyStr (pattern : String) (cwd : String) (options : Obj) :
    String :=
  createCacheKeyString pattern cwd options

/-- Stat cache state: the `statCache` map. -/
abbrev StatState : Type := List (String × JSVal)

/-- The stat-cache key `` `${statType}:${path}` ``. -/
def statKey (statType : String) (path : String) : String :=
  statType ++ ":" ++ path

/-- `getCachedStat(path, statType)`: `statCache.get(key) || null` — an absent
entry reads as `null`, and a present but FALSY value is also coerced to
`null` by `||`. -/
def getCachedStat (st : StatState) (path : String) (statType : String) : JSVal :=
  match st.find? (fun e => e.1 == statKey statType path) with
  | some e => if jsTruthy e.2 then e.2 else .vNull
  | none => .vNull

/-- `setCachedStat(path, result, statType)`. -/
def setCachedStat (st : StatState) (path : String) (result : JSVal)
    (statType : String) : StatState :=
  (statKey statType path, result) :: st.filter (fun e => !(e.1 == statKey statType path))

/-- `getStatCacheSize()`. -/
def getStatCacheSize (st : StatState) : Nat := st.length

/-- `\w` of a JavaScript regex without the `u` flag: `[A-Za-z0-9_]`. -/
def isWordChar (c : Char) : Bool :=
  c.isAlphanum || c == '_'

/-- One of the characters of the class `[?[\]{}()+@!]` tested by
`isSimplePattern`. -/
def isGlobSpecial (c : Char) : Bool :=
  c == '?' || c == '[' || c == ']' || c == '\x7b' || c == '\x7d'
    || c == '(' || c == ')' || c == '+' || c == '@' || c == '!'

/-- `/^\*\.(\w+)$/.exec(pattern)`: the captured extension, if any. Patterns
and filenames are modelled as character lists. -/
def matchStarDot : List Char → Option (List Char)
  | a :: b :: rest =>
    if a = '*' ∧ b = '.' ∧ rest ≠ [] ∧ rest.all isWordChar then some rest
    else none
  | _ => none

/-- `/^\*\*\.(\w+)$/.exec(pattern)`: the captured extension, if any. -/
def matchStarStarDot : List Char → Option (List Char)
  | a :: b :: c :: rest =>
    if a = '*' ∧ b = '*' ∧ c = '.' ∧ rest ≠ [] ∧ rest.all isWordChar then
      some rest
    else none
  | _ => none

/-- The test `/^\*\*?\.\w+$/.test(pattern)`: `*`, an optional second `*`,
then `.`, then one or more word characters — i.e. exactly the union of the
two capture shapes. -/
def matchExtGlob (p : List Char) : Bool :=
  (matchStarDot p).isSome || (matchStarStarDot p).isSome

/-- `isSimplePattern(pattern)`. -/
def isSimplePattern (pattern : List Char) : Bool :=
  if matchExtGlob pattern then true
  else if pattern.any isGlobSpecial then false
  else true

/-- `filename.endsWith(t)`. -/
def strEndsWith (s t : List Char) : Bool :=
  t.isSuffixOf s

/-- `fastPathMatch(pattern, filename)`: resolves `*.ext` and `**.ext` by a
suffix test, `none` (JS `null`) otherwise. -/
def fastPathMatch (pattern filename : List Char) : Option Bool :=
  match matchStarDot pattern with
  | some ext => some (strEndsWith filename ('.' :: ext))
  | none =>
    match matchStarStarDot pattern with
    | some ext => some (strEndsWith filename ('.' :: ext))
    | none => none

/-- The serializable part of an options bag seen through one key: `some v`
when the bag has the key with a value that survives the object/function
filter, otherwise `none`. Two bags "differ only in key ordering or only in
object/function-typed fields" exactly when this view agrees on every key. -/
def serLookup (o : Obj) (k : String) : Option JSVal :=
  match o.find? (fun e => e.1 == k) with
  | some e => if isSerializable e.2 then some e.2 else none
  | none => none

/-- The claim's hypothesis for key invariance: the two option bags agree on
all serializable fields. -/
def SerFieldsAgree (o1 o2 : Obj) : Prop :=
  ∀ k, serLookup o1 k = serLookup o2 k

/-- The claim's grammar for the two fast-path shapes: exactly `*.`‑ext or
`**.`‑ext with `ext` one or more word characters. -/
def SimpleExtSpec (p : List Char) : Prop :=
  ∃ ext : List Char,
    (p = '*' :: '.' :: ext ∨ p = '*' :: '*' :: '.' :: ext)
      ∧ ext ≠ [] ∧ ∀ c ∈ ext, isWordChar c = true

/-- The claim's classification grammar for `isSimplePattern`: the two-shape
grammar, or no occurrence of any of `? [ ] \x7b \x7d ( ) + @ !`. -/
def SimplePatternSpec (p : List Char) : Prop :=
  SimpleExtSpec p ∨ ∀ c ∈ p, isGlobSpecial c = false

/-! Order properties of the string comparison and the sort. -/

theorem lexLe_cons_iff {a b : Char} {as bs : List Char} :
    lexLe (a :: as) (b :: bs) = true ↔ a < b ∨ (a = b ∧ lexLe as bs = true) := by
  simp only [lexLe]
  split_ifs with h1 h2
  · simp [h1]
  · simp only [Bool.false_eq_true, false_iff]
    rintro (h | ⟨rfl, -⟩)
    · exact h1 h
    · exact lt_irrefl _ h2
  · have hab : a = b := le_antisymm (not_lt.mp h2) (not_lt.mp h1)
    simp [hab, h1]

theorem lexLe_total (x y : List Char) : lexLe x y = true ∨ lexLe y x = true := by
  induction x generalizing y with
  | nil => exact Or.inl rfl
  | cons a as ih =>
    cases y with
    | nil => exact Or.inr rfl
    | cons b bs =>
      rcases lt_trichotomy a b with h | h | h
      · exact Or.inl (lexLe_cons_iff.mpr (Or.inl h))
      · rcases ih bs with h2 | h2
        · exact Or.inl (lexLe_cons_iff.mpr (Or.inr ⟨h, h2⟩))
        · exact Or.inr (lexLe_cons_iff.mpr (Or.inr ⟨h.symm, h2⟩))
      · exact Or.inr (lexLe_cons_iff.mpr (Or.inl h))

theorem lexLe_trans {x y z : List Char} (h1 : lexLe x y = true)
    (h2 : lexLe y z = true) : lexLe x z = true := by
  induction x generalizing y z with
  | nil => rfl
  | cons a as ih =>
    cases y with
    | nil => simp [lexLe] at h1
    | cons b bs =>
      cases z with
      | nil => simp [lexLe] at h2
      | cons c cs =>
        rw [lexLe_cons_iff] at h1 h2 ⊢
        rcases h1 with h1 | ⟨rfl, h1⟩
        · rcases h2 with h2 | ⟨rfl, h2⟩
          · exact Or.inl (h1.trans h2)
          · exact Or.inl h1
        · rcases h2 with h2 | ⟨rfl, h2⟩
          · exact Or.inl h2
          · exact Or.inr ⟨rfl, ih h1 h2⟩

theorem lexLe_antisymm {x y : List Char} (h1 : lexLe x y = true)
    (h2 : lexLe y x = true) : x = y := by
  induction x generalizing y with
  | nil =>
    cases y with
    | nil => rfl
    | cons b bs => simp [lexLe] at h2
  | cons a as ih =>
    cases y with
    | nil => simp [lexLe] at h1
    | cons b bs =>
      rw [lexLe_cons_iff] at h1 h2
      rcases h1 with h1 | ⟨rfl, h1⟩
      · rcases h2 with h2 | ⟨rfl, h2⟩
        · exact absurd (h1.trans h2) (lt_irrefl _)
        · exact absurd h1 (lt_irrefl _)
      · rcases h2 with h2 | ⟨-, h2⟩
        · exact absurd h2 (lt_irrefl _)
        · rw [ih h1 h2]

theorem strLe_total (a b : String) : strLe a b ∨ strLe b a :=
  lexLe_total a.data b.data

theorem strLe_trans {a b c : String} (h1 : strLe a b) (h2 : strLe b c) :
    strLe a c :=
  lexLe_trans h1 h2

theorem strLe_antisymm {a b : String} (h1 : strLe a b) (h2 : strLe b a) :
    a = b := by
  cases a with
  | mk da =>
    cases b with
    | mk db => exact congrArg String.mk (lexLe_antisymm h1 h2)

theorem sortStr_perm (l : List String) : (sortStr l).Perm l :=
  List.perm_insertionSort _ _

theorem sortStr_sorted (l : List String) : List.Sorted strLe (sortStr l) := by
  haveI : IsTotal String strLe := ⟨strLe_total⟩
  haveI : IsTrans String strLe := ⟨fun _ _ _ => strLe_trans⟩
  exact List.sorted_insertionSort _ _

theorem sortStr_eq_of_perm {l1 l2 : List String} (h : l1.Perm l2) :
    sortStr l1 = sortStr l2 := by
  haveI : IsAntisymm String strLe := ⟨fun _ _ => strLe_antisymm⟩
  exact List.eq_of_perm_of_sorted
    ((sortStr_perm l1).trans (h.trans (sortStr_perm l2).symm))
    (sortStr_sorted l1) (sortStr_sorted l2)

theorem sortStr_idem (l : List String) : sortStr (sortStr l) = sortStr l :=
  sortStr_eq_of_perm (sortStr_perm l)

/-! Association-list (JS `Map` / object) lemmas. -/

theorem assoc_find?_key {α : Type} {l : List (String × α)} {k : String}
    {e : String × α} (h : l.find? (fun e2 => e2.1 == k) = some e) : e.1 = k := by
  simpa using List.find?_some h

theorem assoc_find?_eq_some {α : Type} {l : List (String × α)} {k : String}
    {v : α} (hnd : (l.map (·.1)).Nodup) (hm : (k, v) ∈ l) :
    l.find? (fun e2 => e2.1 == k) = some (k, v) := by
  induction l with
  | nil => cases hm
  | cons e rest ih =>
    simp only [List.map_cons, List.nodup_cons] at hnd
    rcases List.mem_cons.mp hm with rfl | hm2
    · exact List.find?_cons_of_pos _ (by simp)
    · have hne : e.1 ≠ k := fun hk =>
        hnd.1 (hk ▸ List.mem_map.mpr ⟨(k, v), hm2, rfl⟩)
      rw [List.find?_cons_of_neg _ (by simp [hne])]
      exact ih hnd.2 hm2

theorem assoc_find?_eq_none {α : Type} {l : List (String × α)} {k : String} :
    l.find? (fun e2 => e2.1 == k) = none ↔ k ∉ l.map (·.1) := by
  rw [List.find?_eq_none]
  constructor
  · intro h hk
    rcases List.mem_map.mp hk with ⟨e, he, hke⟩
    exact h e he (by simp [hke])
  · intro hk e he heq
    exact hk (List.mem_map.mpr ⟨e, he, by simpa using heq⟩)

theorem assoc_find?_perm {α : Type} {l1 l2 : List (String × α)}
    (hnd : (l1.map (·.1)).Nodup) (hp : l1.Perm l2) (k : String) :
    l1.find? (fun e2 => e2.1 == k) = l2.find? (fun e2 => e2.1 == k) := by
  have hnd2 : (l2.map (·.1)).Nodup := ((hp.map (·.1)).nodup_iff).mp hnd
  cases hf : l1.find? (fun e2 => e2.1 == k) with
  | none =>
    have hk : k ∉ l2.map (·.1) := fun hmem => by
      have : k ∈ l1.map (·.1) := ((hp.map (·.1)).mem_iff).mpr hmem
      exact assoc_find?_eq_none.mp hf this
    exact (assoc_find?_eq_none.mpr hk).symm
  | some e =>
    obtain ⟨e1, ev⟩ := e
    have hk : e1 = k := assoc_find?_key hf
    subst hk
    have hm : (e1, ev) ∈ l2 := hp.subset (List.mem_of_find?_eq_some hf)
    exact (assoc_find?_eq_some hnd2 hm).symm

theorem assoc_filter_length {α : Type} {l : List (String × α)} {k : String}
    {e : String × α} (hnd : (l.map (·.1)).Nodup)
    (hf : l.find? (fun e2 => e2.1 == k) = some e) :
    (l.filter (fun e2 => !(e2.1 == k))).length + 1 = l.length := by
  induction l with
  | nil => simp at hf
  | cons a rest ih =>
    simp only [List.map_cons, List.nodup_cons] at hnd
    by_cases hk : a.1 = k
    · have hrest : rest.filter (fun e2 => !(e2.1 == k)) = rest :=
        List.filter_eq_self.mpr (fun e2 he2 => by
          simp only [Bool.not_eq_true', beq_eq_false_iff_ne, ne_eq]
          intro hkk
          exact hnd.1 (hk ▸ hkk ▸ List.mem_map.mpr ⟨e2, he2, rfl⟩))
      simp [List.filter_cons, hk, hrest]
    · have hfr : rest.find? (fun e2 => e2.1 == k) = some e := by
        rwa [List.find?_cons_of_neg _ (by simp [hk])] at hf
      have := ih hnd.2 hfr
      simp only [List.filter_cons, Bool.not_eq_true', beq_eq_false_iff_ne, ne_eq,
        hk, not_false_eq_true, if_true, List.length_cons]
      omega

/-! Lookup and projection lemmas for option bags. -/

theorem vlookup_eq_of_perm {o1 o2 : Obj} (hnd : NodupKeys o1) (hp : o1.Perm o2)
    (k : String) : vlookup o1 k = vlookup o2 k := by
  unfold vlookup
  rw [assoc_find?_perm hnd hp k]

theorem serLookup_eq_of_perm {o1 o2 : Obj} (hnd : NodupKeys o1)
    (hp : o1.Perm o2) (k : String) : serLookup o1 k = serLookup o2 k := by
  unfold serLookup
  rw [assoc_find?_perm hnd hp k]

theorem serFieldsAgree_of_perm {o1 o2 : Obj} (hnd : NodupKeys o1)
    (hp : o1.Perm o2) : SerFieldsAgree o1 o2 :=
  fun k => serLookup_eq_of_perm hnd hp k

theorem mem_serKeys_iff {o : Obj} {k : String} :
    k ∈ (objKeys o).filter (fun k2 => isSerializable (vlookup o k2))
      ↔ (serLookup o k).isSome := by
  rw [List.mem_filter]
  unfold serLookup vlookup objKeys
  cases hf : o.find? (fun e => e.1 == k) with
  | none =>
    have hk := assoc_find?_eq_none.mp hf
    simp [hf, hk]
  | some e =>
    have hk := assoc_find?_key hf
    have hmem : k ∈ o.map (·.1) :=
      hk ▸ List.mem_map.mpr ⟨e, List.mem_of_find?_eq_some hf, rfl⟩
    cases hs : isSerializable e.2 <;> simp [hf, hmem, hs]

theorem vlookup_of_serLookup {o : Obj} {k : String} {v : JSVal}
    (h : serLookup o k = some v) : vlookup o k = v := by
  unfold serLookup at h
  unfold vlookup
  cases hf : o.find? (fun e => e.1 == k) with
  | none => rw [hf] at h; simp at h
  | some e =>
    rw [hf] at h
    dsimp only at h ⊢
    by_cases hs : isSerializable e.2 = true
    · rw [if_pos hs] at h
      exact Option.some.inj h
    · rw [if_neg hs] at h
      cases h

theorem serProj_eq_of_serFieldsAgree {o1 o2 : Obj} (h1 : NodupKeys o1)
    (h2 : NodupKeys o2) (ha : SerFieldsAgree o1 o2) :
    serializableProjection o1 = serializableProjection o2 := by
  have hnd1 : ((objKeys o1).filter (fun k => isSerializable (vlookup o1 k))).Nodup :=
    h1.filter _
  have hnd2 : ((objKeys o2).filter (fun k => isSerializable (vlookup o2 k))).Nodup :=
    h2.filter _
  have hperm :
      ((objKeys o1).filter (fun k => isSerializable (vlookup o1 k))).Perm
        ((objKeys o2).filter (fun k => isSerializable (vlookup o2 k))) :=
    (List.perm_ext_iff_of_nodup hnd1 hnd2).mpr (fun k => by
      rw [mem_serKeys_iff, mem_serKeys_iff, ha k])
  unfold serializableProjection
  rw [sortStr_eq_of_perm hperm]
  refine List.map_congr_left (fun k hk => ?_)
  have hk2 : k ∈ (objKeys o2).filter (fun k2 => isSerializable (vlookup o2 k2)) :=
    (sortStr_perm _).subset hk
  have hsome : (serLookup o2 k).isSome := mem_serKeys_iff.mp hk2
  rcases Option.isSome_iff_exists.mp hsome with ⟨v, hv⟩
  rw [vlookup_of_serLookup hv, vlookup_of_serLookup (ha k ▸ hv)]

theorem nodupKeys_of_perm {o1 o2 : Obj} (h1 : NodupKeys o1) (hp : o1.Perm o2) :
    NodupKeys o2 := by
  unfold NodupKeys objKeys at h1 ⊢
  exact ((hp.map (fun e => e.1)).nodup_iff).mp h1

theorem serProj_eq_of_perm {o1 o2 : Obj} (h1 : NodupKeys o1) (hp : o1.Perm o2) :
    serializableProjection o1 = serializableProjection o2 :=
  serProj_eq_of_serFieldsAgree h1 (nodupKeys_of_perm h1 hp)
    (serFieldsAgree_of_perm h1 hp)

/-! Pattern-cache lemmas. -/

theorem getCachedPattern_ok_find {cf : String → Obj → Option String}
    {st : PatState} {pat : String} {o : Obj} {m : Nat} {st1 : PatState}
    (h : getCachedPattern cf st pat o = (.ok m, st1)) :
    st1.entries.find? (fun e => e.1 == patternCacheKey pat o)
      = some (patternCacheKey pat o, m) := by
  unfold getCachedPattern at h
  cases hf : st.entries.find? (fun e => e.1 == patternCacheKey pat o) with
  | some e =>
    rw [hf] at h
    dsimp only at h
    injection h with h1 h2
    injection h1 with h1
    obtain ⟨e1, e2⟩ := e
    have hk : e1 = patternCacheKey pat o := assoc_find?_key hf
    subst hk
    subst h2
    rw [hf]
    exact congrArg (fun x => some (patternCacheKey pat o, x)) h1
  | none =>
    rw [hf] at h
    dsimp only at h
    cases hc : cf pat o with
    | some err =>
      rw [hc] at h
      dsimp only at h
      injection h with h1 h2
      injection h1
    | none =>
      rw [hc] at h
      dsimp only at h
      injection h with h1 h2
      injection h1 with h1
      rw [← h2]
      dsimp only
      rw [List.find?_cons_of_pos _ (by simp), h1]

theorem nodupKeys_append_single {o : Obj} {f : String} {v : JSVal}
    (h1 : NodupKeys o) (hf : f ∉ objKeys o) : NodupKeys (o ++ [(f, v)]) := by
  unfold NodupKeys objKeys at h1 ⊢
  unfold objKeys at hf
  rw [List.map_append, List.nodup_append]
  refine ⟨h1, List.nodup_singleton f, ?_⟩
  intro a ha hb
  simp only [List.map_cons, List.map_nil, List.mem_singleton] at hb
  subst hb
  exact hf ha

theorem serFieldsAgree_append_null {o : Obj} {f : String} (_hf : f ∉ objKeys o) :
    SerFieldsAgree (o ++ [(f, JSVal.vNull)]) o := by
  intro k
  unfold serLookup
  rw [List.find?_append]
  cases hfo : o.find? (fun e => e.1 == k) with
  | some e => dsimp only [Option.or]
  | none =>
    dsimp only [Option.or]
    by_cases hk : f = k
    · subst hk
      simp [List.find?, isSerializable, jsTypeIsObjectOrFunction]
    · rw [List.find?_cons_of_neg _ (by simp [hk])]
      rfl

/-- C5: two option bags that differ only in key ordering, or only in
object- or function-typed fields, give the same pattern-cache key; after a
first call stored a matcher, the second call with the other bag returns the
identical matcher instance and leaves the cache state (hence its size)
unchanged. -/
theorem spec_c5_pattern_key_invariance
    (cf : String → Obj → Option String) (st st1 : PatState) (pat : String)
    (o1 o2 : Obj) (m : Nat) (h1 : NodupKeys o1) (h2 : NodupKeys o2)
    (hd : o1.Perm o2 ∨ SerFieldsAgree o1 o2)
    (hc : getCachedPattern cf st pat o1 = (.ok m, st1)) :
    patternCacheKey pat o1 = patternCacheKey pat o2
      ∧ getCachedPattern cf st1 pat o2 = (.ok m, st1)
      ∧ getPatternCacheSize (getCachedPattern cf st1 pat o2).2
          = getPatternCacheSize st1 := by
  have hproj : serializableProjection o1 = serializableProjection o2 :=
    hd.elim (fun hp => serProj_eq_of_perm h1 hp)
      (fun ha => serProj_eq_of_serFieldsAgree h1 h2 ha)
  have hkey : patternCacheKey pat o1 = patternCacheKey pat o2 := by
    unfold patternCacheKey
    rw [hproj]
  have hfind := getCachedPattern_ok_find hc
  have hcall : getCachedPattern cf st1 pat o2 = (.ok m, st1) := by
    unfold getCachedPattern
    rw [← hkey, hfind]
  exact ⟨hkey, hcall, by rw [hcall]⟩

/-- C9: when the compilation engine fails, `getCachedPattern` propagates the
error unmodified and leaves the cache state unchanged, so an identical call
still reaches the engine: with the engine still failing it fails identically,
and with the engine now succeeding it compiles afresh and stores the result. -/
theorem spec_c9_compile_failure_atomicity
    (cf cf2 : String → Obj → Option String) (st : PatState) (pat : String)
    (o : Obj) (err : String)
    (hmiss : st.entries.find? (fun e => e.1 == patternCacheKey pat o) = none)
    (herr : cf pat o = some err) (hok : cf2 pat o = none) :
    getCachedPattern cf st pat o = (.error err, st)
      ∧ getCachedPattern cf2 st pat o
          = (.ok st.nextId,
             ⟨(patternCacheKey pat o, st.nextId) :: st.entries,
              st.nextId + 1⟩) := by
  constructor
  · unfold getCachedPattern
    rw [hmiss, herr]
  · unfold getCachedPattern
    rw [hmiss, hok]

/-- C10: extending an options bag by a field bound to `null` (whose `typeof`
is `'object'`, so the key filter drops it) leaves the pattern-cache key
unchanged; after a first call stored a matcher, the call with the extended
bag returns the identical matcher and leaves the cache state unchanged. -/
theorem spec_c10_null_field_ignored
    (cf : String → Obj → Option String) (st st1 : PatState) (pat : String)
    (o : Obj) (f : String) (m : Nat) (h1 : NodupKeys o) (hf : f ∉ objKeys o)
    (hc : getCachedPattern cf st pat o = (.ok m, st1)) :
    patternCacheKey pat (o ++ [(f, JSVal.vNull)]) = patternCacheKey pat o
      ∧ getCachedPattern cf st1 pat (o ++ [(f, JSVal.vNull)]) = (.ok m, st1) := by
  have hnd2 : NodupKeys (o ++ [(f, JSVal.vNull)]) :=
    nodupKeys_append_single h1 hf
  have hproj : serializableProjection (o ++ [(f, JSVal.vNull)])
      = serializableProjection o :=
    serProj_eq_of_serFieldsAgree hnd2 h1 (serFieldsAgree_append_null hf)
  have hkey : patternCacheKey pat (o ++ [(f, JSVal.vNull)])
      = patternCacheKey pat o := by
    unfold patternCacheKey
    rw [hproj]
  have hfind := getCachedPattern_ok_find hc
  refine ⟨hkey, ?_⟩
  unfold getCachedPattern
  rw [hkey, hfind]

/-- C6: `createCacheKey` on two pattern arrays that are permutations of each
other (any heap cells, any cwd, any options) returns equal key strings. -/
theorem spec_c6_pattern_order_invariance (h1 h2 : Heap) (r1 r2 : Nat)
    (cwd : String) (o : Obj) (hp : (readRef h1 r1).Perm (readRef h2 r2)) :
    (createCacheKeyArr h1 r1 cwd o).1 = (createCacheKeyArr h2 r2 cwd o).1 := by
  unfold createCacheKeyArr createCacheKeyOfList
  rw [sortStr_eq_of_perm hp]

/-- Witness for C6 at the spec's own instance: `['b','a']` and `['a','b']`. -/
theorem spec_c6_witness :
    (createCacheKeyArr [["b", "a"]] 0 "/" []).1
      = (createCacheKeyArr [["a", "b"]] 0 "/" []).1 :=
  spec_c6_pattern_order_invariance [["b", "a"]] [["a", "b"]] 0 0 "/" []
    (by decide)

/-- C4: result-cache lookup with lazy TTL expiry — absent key gives `none`;
a present entry older than `ttl` is deleted (size drops by one) and `none`
is returned; a present entry with age at most `ttl` is returned as stored. -/
theorem spec_c4_ttl_lazy_expiry (st : RCState) (k : String) (ttl now : Nat)
    (hwf : RCWF st) :
    (st.entries.find? (fun e => e.1 == k) = none →
        getCachedResults st k ttl now = (none, st))
      ∧ (∀ e, st.entries.find? (fun e2 => e2.1 == k) = some e →
          (now - e.2.2 > ttl →
              getCachedResults st k ttl now
                = (none,
                   { st with
                     entries := st.entries.filter (fun e2 => !(e2.1 == k)) })
                ∧ getResultCacheSize
                      { st with
                        entries := st.entries.filter (fun e2 => !(e2.1 == k)) }
                      + 1
                    = getResultCacheSize st)
            ∧ (now - e.2.2 ≤ ttl →
                getCachedResults st k ttl now = (some e.2.1, st))) := by
  constructor
  · intro hnone
    unfold getCachedResults
    rw [hnone]
  · intro e hsome
    constructor
    · intro hexp
      constructor
      · unfold getCachedResults
        rw [hsome]
        dsimp only
        rw [if_pos hexp]
      · exact assoc_filter_length hwf hsome
    · intro hle
      unfold getCachedResults
      rw [hsome]
      dsimp only
      rw [if_neg (by omega)]

/-- Witness for C4 at the spec's own instance: store `['x']` at T = 0, read
with ttl 100 at T+50 (hit, the stored array) and at T+150 (expired: deleted,
`none`, size down by one). -/
theorem spec_c4_witness :
    getCachedResults (setCachedResults ⟨[["x"]], []⟩ "k" 0 0) "k" 100 50
        = (some 1, setCachedResults ⟨[["x"]], []⟩ "k" 0 0)
      ∧ readRef (setCachedResults ⟨[["x"]], []⟩ "k" 0 0).heap 1 = ["x"]
      ∧ getCachedResults (setCachedResults ⟨[["x"]], []⟩ "k" 0 0) "k" 100 150
          = (none,
             { setCachedResults ⟨[["x"]], []⟩ "k" 0 0 with
               entries := (setCachedResults ⟨[["x"]], []⟩ "k" 0 0).entries.filter
                 (fun e2 => !(e2.1 == "k")) })
      ∧ getResultCacheSize
            { setCachedResults ⟨[["x"]], []⟩ "k" 0 0 with
              entries := (setCachedResults ⟨[["x"]], []⟩ "k" 0 0).entries.filter
                (fun e2 => !(e2.1 == "k")) } + 1
          = getResultCacheSize (setCachedResults ⟨[["x"]], []⟩ "k" 0 0) := by
  have h50 := spec_c4_ttl_lazy_expiry (setCachedResults ⟨[["x"]], []⟩ "k" 0 0)
    "k" 100 50 (by unfold RCWF; decide)
  have h150 := spec_c4_ttl_lazy_expiry (setCachedResults ⟨[["x"]], []⟩ "k" 0 0)
    "k" 100 150 (by unfold RCWF; decide)
  have hhit := (h50.2 ("k", 1, 0) (by decide)).2 (by decide)
  have hexp := (h150.2 ("k", 1, 0) (by decide)).1 (by decide)
  exact ⟨hhit, by decide, hexp.1, hexp.2⟩

/-- C2 counterexample: after storing the falsy stat value `false` under
`('/p','lstat')`, `getCachedStat` does NOT return the stored value — the
`|| null` coercion turns it into the absent sentinel `null`. -/
theorem spec_c2_counterexample :
    getCachedStat (setCachedStat [] "/p" (JSVal.vBool false) "lstat") "/p" "lstat"
        = JSVal.vNull
      ∧ getCachedStat (setCachedStat [] "/p" (JSVal.vBool false) "lstat") "/p"
          "lstat"
        ≠ JSVal.vBool false := by
  decide

/-- C2 amended: after `setCachedStat(p, v, kind)` with no intervening clear
or overwrite, `getCachedStat(p, kind)` returns exactly `v` provided `v` is
truthy; falsy stored values are coerced to `null` by `|| null`. -/
theorem spec_c2_stat_roundtrip_truthy (st : StatState) (p : String) (v : JSVal)
    (ty : String) (hv : jsTruthy v = true) :
    getCachedStat (setCachedStat st p v ty) p ty = v := by
  unfold getCachedStat setCachedStat
  rw [List.find?_cons_of_pos _ (by simp)]
  dsimp only
  simp [hv]

/-- Witness for C2's amended statement at a truthy stored value. -/
theorem spec_c2_witness :
    getCachedStat (setCachedStat [] "/p" (JSVal.vNum 5) "lstat") "/p" "lstat"
        = JSVal.vNum 5
      ∧ jsTruthy (JSVal.vNum 5) = true :=
  ⟨spec_c2_stat_roundtrip_truthy [] "/p" (JSVal.vNum 5) "lstat" (by decide),
   by decide⟩

/-! Result-cache aliasing lemmas (claims C1 and C3). -/

theorem getCachedResults_head_hit (hp : Heap) (k : String) (rr ts : Nat)
    (rest : List (String × Nat × Nat)) (ttl now : Nat) (h : now - ts ≤ ttl) :
    getCachedResults ⟨hp, (k, rr, ts) :: rest⟩ k ttl now
      = (some rr, ⟨hp, (k, rr, ts) :: rest⟩) := by
  unfold getCachedResults
  rw [List.find?_cons_of_pos _ (by simp)]
  dsimp only
  rw [if_neg (by omega)]

theorem readRef_set_clone (h : Heap) (r : Nat) (v2 : List String)
    (hr : r < h.length) :
    readRef ((h ++ [readRef h r]).set r v2) h.length = readRef h r := by
  simp only [readRef, List.getD_eq_getElem?_getD]
  rw [List.getElem?_set_ne (Nat.ne_of_lt hr), List.getElem?_concat_length]
  rfl

/-- C1 counterexample, refuting the read direction of the claim at a concrete
input: store `['x']` under `'k'`; `getCachedResults` hands back the stored
array itself (reference 1); mutating that returned array to `['y']` changes
what a second `getCachedResults('k')` returns (`['y']`, not `['x']`). -/
theorem spec_c1_counterexample :
    (getCachedResultsVal (setCachedResults ⟨[["x"]], []⟩ "k" 0 0) "k" 100 0).1
        = some ["x"]
      ∧ (getCachedResults (setCachedResults ⟨[["x"]], []⟩ "k" 0 0) "k" 100 0).1
        = some 1
      ∧ (getCachedResultsVal
          { setCachedResults ⟨[["x"]], []⟩ "k" 0 0 with
            heap := writeRef (setCachedResults ⟨[["x"]], []⟩ "k" 0 0).heap 1
              ["y"] }
          "k" 100 0).1
        = some ["y"]
      ∧ some ["y"] ≠ (some ["x"] : Option (List String)) := by
  decide

/-- C1 amended: the write direction holds — `setCachedResults` stores a
defensive copy, so mutating the caller's array afterwards leaves a
non-expired `getCachedResults` returning the originally stored contents; but
there is no copy on read — `getCachedResults` returns the cache's own array
reference (the freshly allocated cell `st.heap.length`), so mutations through
the returned array do reach the cache (as the counterexample shows). -/
theorem spec_c1_defensive_copy_on_write_only (st : RCState) (k : String)
    (r : Nat) (ttl now now2 : Nat) (v2 : List String)
    (hr : r < st.heap.length) (hfresh : now2 - now ≤ ttl) :
    (getCachedResultsVal
        { setCachedResults st k r now with
          heap := writeRef (setCachedResults st k r now).heap r v2 }
        k ttl now2).1 = some (readRef st.heap r)
      ∧ getCachedResults (setCachedResults st k r now) k ttl now2
          = (some st.heap.length, setCachedResults st k r now) := by
  constructor
  · have hget := getCachedResults_head_hit
      ((st.heap ++ [readRef st.heap r]).set r v2) k st.heap.length now
      (st.entries.filter (fun e => !(e.1 == k))) ttl now2 hfresh
    unfold getCachedResultsVal
    dsimp only
    unfold setCachedResults writeRef
    dsimp only
    rw [hget]
    dsimp only [Option.map_some']
    rw [readRef_set_clone st.heap r v2 hr]
  · exact getCachedResults_head_hit _ k _ now _ ttl now2 hfresh

/-- C3 counterexample at a concrete input: calling `createCacheKey` on the
array `['b','a']` leaves the caller's array reordered to `['a','b']` —
`pattern.sort()` mutates the argument in place, so the call is not free of
side effects on its arguments. -/
theorem spec_c3_counterexample :
    readRef (createCacheKeyArr [["b", "a"]] 0 "/" []).2 0 = ["a", "b"]
      ∧ readRef [["b", "a"]] 0 = ["b", "a"]
      ∧ (["a", "b"] : List String) ≠ ["b", "a"] := by
  decide

/-- C3 amended: the returned key is a deterministic, pure function of the
array's contents, cwd and serializable options, and an immediately repeated
call yields the same key; but the call sorts the caller's array in place —
afterwards the array holds the same elements only as a multiset (a
permutation of the original), not necessarily in the original order. -/
theorem spec_c3_key_pure_but_sorts_in_place (h : Heap) (r : Nat)
    (cwd : String) (o : Obj) (hr : r < h.length) :
    (readRef (createCacheKeyArr h r cwd o).2 r).Perm (readRef h r)
      ∧ (createCacheKeyArr (createCacheKeyArr h r cwd o).2 r cwd o).1
          = (createCacheKeyArr h r cwd o).1
      ∧ (createCacheKeyArr h r cwd o).1
          = createCacheKeyOfList (readRef h r) cwd o := by
  have hread : readRef (createCacheKeyArr h r cwd o).2 r
      = sortStr (readRef h r) := by
    show readRef (writeRef h r (sortStr (readRef h r))) r = sortStr (readRef h r)
    simp only [readRef, writeRef, List.getD_eq_getElem?_getD,
      List.getElem?_set_self hr]
    rfl
  refine ⟨?_, ?_, rfl⟩
  · rw [hread]
    exact sortStr_perm _
  · show createCacheKeyOfList (readRef (createCacheKeyArr h r cwd o).2 r) cwd o
      = createCacheKeyOfList (readRef h r) cwd o
    rw [hread]
    unfold createCacheKeyOfList
    rw [sortStr_idem]

/-! Fast-path classifier/matcher lemmas (claims C7 and C8). -/

theorem matchStarDot_sound {p ext : List Char} (h : matchStarDot p = some ext) :
    p = '*' :: '.' :: ext ∧ ext ≠ [] ∧ ∀ c ∈ ext, isWordChar c = true := by
  cases p with
  | nil => simp [matchStarDot] at h
  | cons a q =>
    cases q with
    | nil => simp [matchStarDot] at h
    | cons b rest =>
      unfold matchStarDot at h
      dsimp only at h
      split_ifs at h with hc
      · obtain ⟨rfl, rfl, hne, hall⟩ := hc
        injection h with h
        subst h
        exact ⟨rfl, hne, fun c hc2 => by
          have := List.all_eq_true.mp hall c hc2
          simpa using this⟩

theorem matchStarStarDot_sound {p ext : List Char}
    (h : matchStarStarDot p = some ext) :
    p = '*' :: '*' :: '.' :: ext ∧ ext ≠ [] ∧ ∀ c ∈ ext, isWordChar c = true := by
  cases p with
  | nil => simp [matchStarStarDot] at h
  | cons a q =>
    cases q with
    | nil => simp [matchStarStarDot] at h
    | cons b rest =>
      cases rest with
      | nil => simp [matchStarStarDot] at h
      | cons c3 rest2 =>
        unfold matchStarStarDot at h
        dsimp only at h
        split_ifs at h with hc
        · obtain ⟨rfl, rfl, rfl, hne, hall⟩ := hc
          injection h with h
          subst h
          exact ⟨rfl, hne, fun c hc2 => by
            have := List.all_eq_true.mp hall c hc2
            simpa using this⟩

theorem matchStarDot_star_ext {ext : List Char} (hne : ext ≠ [])
    (hall : ∀ c ∈ ext, isWordChar c = true) :
    matchStarDot ('*' :: '.' :: ext) = some ext := by
  unfold matchStarDot
  dsimp only
  rw [if_pos ⟨rfl, rfl, hne, List.all_eq_true.mpr (fun c hc => by
    simpa using hall c hc)⟩]

theorem matchStarDot_on_starstar {ext : List Char} :
    matchStarDot ('*' :: '*' :: '.' :: ext) = none := by
  unfold matchStarDot
  dsimp only
  rw [if_neg]
  rintro ⟨-, hb, -⟩
  exact absurd hb (by decide)

theorem matchStarStarDot_star_star_ext {ext : List Char} (hne : ext ≠ [])
    (hall : ∀ c ∈ ext, isWordChar c = true) :
    matchStarStarDot ('*' :: '*' :: '.' :: ext) = some ext := by
  unfold matchStarStarDot
  dsimp only
  rw [if_pos ⟨rfl, rfl, rfl, hne, List.all_eq_true.mpr (fun c hc => by
    simpa using hall c hc)⟩]

/-- C7: `fastPathMatch` resolves exactly the two shapes `*.`‑ext and
`**.`‑ext (both by the suffix test `filename.endsWith('.' + ext)`), and on
every other pattern — word-only patterns like `abc` included — it returns
the indeterminate sentinel `none`, never a boolean. -/
theorem spec_c7_fast_path_two_shapes (p f : List Char) :
    (∀ ext : List Char, ext ≠ [] → (∀ c ∈ ext, isWordChar c = true) →
        (p = '*' :: '.' :: ext →
            fastPathMatch p f = some (strEndsWith f ('.' :: ext)))
          ∧ (p = '*' :: '*' :: '.' :: ext →
              fastPathMatch p f = some (strEndsWith f ('.' :: ext))))
      ∧ (¬ SimpleExtSpec p → fastPathMatch p f = none) := by
  constructor
  · intro ext hne hall
    constructor
    · rintro rfl
      unfold fastPathMatch
      rw [matchStarDot_star_ext hne hall]
    · rintro rfl
      unfold fastPathMatch
      rw [matchStarDot_on_starstar]
      dsimp only
      rw [matchStarStarDot_star_star_ext hne hall]
  · intro hns
    have h1 : matchStarDot p = none := by
      cases hm : matchStarDot p with
      | none => rfl
      | some ext =>
        obtain ⟨hp, hne, hall⟩ := matchStarDot_sound hm
        exact absurd ⟨ext, Or.inl hp, hne, hall⟩ hns
    have h2 : matchStarStarDot p = none := by
      cases hm : matchStarStarDot p with
      | none => rfl
      | some ext =>
        obtain ⟨hp, hne, hall⟩ := matchStarStarDot_sound hm
        exact absurd ⟨ext, Or.inr hp, hne, hall⟩ hns
    unfold fastPathMatch
    rw [h1]
    dsimp only
    rw [h2]

/-- Witness for C7: `*.js` resolves to the suffix test on `c.js`, while the
word-only pattern `abc` (classified simple by `isSimplePattern`) yields the
indeterminate sentinel. -/
theorem spec_c7_witness :
    fastPathMatch ['*', '.', 'j', 's'] ['c', '.', 'j', 's']
        = some (strEndsWith ['c', '.', 'j', 's'] ['.', 'j', 's'])
      ∧ fastPathMatch ['a', 'b', 'c'] ['a', 'b', 'c'] = none
      ∧ isSimplePattern ['a', 'b', 'c'] = true := by
  have h1 := spec_c7_fast_path_two_shapes ['*', '.', 'j', 's'] ['c', '.', 'j', 's']
  have h2 := spec_c7_fast_path_two_shapes ['a', 'b', 'c'] ['a', 'b', 'c']
  refine ⟨(h1.1 ['j', 's'] (by decide) (by decide)).1 rfl, ?_, by decide⟩
  refine h2.2 ?_
  rintro ⟨ext, h | h, -, -⟩ <;> simp at h

theorem matchExtGlob_iff {p : List Char} :
    matchExtGlob p = true ↔ SimpleExtSpec p := by
  unfold matchExtGlob
  rw [Bool.or_eq_true, Option.isSome_iff_exists, Option.isSome_iff_exists]
  constructor
  · rintro (⟨ext, hm⟩ | ⟨ext, hm⟩)
    · obtain ⟨hp, hne, hall⟩ := matchStarDot_sound hm
      exact ⟨ext, Or.inl hp, hne, hall⟩
    · obtain ⟨hp, hne, hall⟩ := matchStarStarDot_sound hm
      exact ⟨ext, Or.inr hp, hne, hall⟩
  · rintro ⟨ext, hp | hp, hne, hall⟩
    · subst hp
      exact Or.inl ⟨ext, matchStarDot_star_ext hne hall⟩
    · subst hp
      exact Or.inr ⟨ext, matchStarStarDot_star_star_ext hne hall⟩

/-- C8: `isSimplePattern` returns true exactly on the grammar the claim
states — the `*.`‑ext / `**.`‑ext shapes, or patterns containing none of
`? [ ] \x7b \x7d ( ) + @ !` — and false otherwise. -/
theorem spec_c8_simple_pattern_grammar (p : List Char) :
    isSimplePattern p = true ↔ SimplePatternSpec p := by
  unfold isSimplePattern SimplePatternSpec
  by_cases hg : matchExtGlob p = true
  · rw [if_pos hg]
    simp only [true_iff]
    exact Or.inl (matchExtGlob_iff.mp hg)
  · rw [if_neg (by simpa using hg)]
    by_cases ha : p.any isGlobSpecial = true
    · rw [if_pos (by simpa using ha)]
      simp only [Bool.false_eq_true, false_iff]
      rintro (hs | hall)
      · exact hg (matchExtGlob_iff.mpr hs)
      · rcases List.any_eq_true.mp ha with ⟨c, hc, hspec⟩
        rw [hall c hc] at hspec
        cases hspec
    · rw [if_neg (by simpa using ha)]
      simp only [true_iff]
      refine Or.inr (fun c hc => ?_)
      have hfa : p.any isGlobSpecial = false := by simpa using ha
      have := List.any_eq_false.mp hfa c hc
      simpa using this

/-! Concrete witnesses for the theorems with hypotheses. -/

/-- Witness for C1's amended statement: store the array `['x']` (reference
0), mutate the caller's array to `['mut']`; a fresh read still returns
`['x']`, and the read hands back the cache's own reference (1). -/
theorem spec_c1_witness :
    (getCachedResultsVal
        { setCachedResults ⟨[["x"]], []⟩ "k" 0 0 with
          heap := writeRef (setCachedResults ⟨[["x"]], []⟩ "k" 0 0).heap 0
            ["mut"] }
        "k" 100 50).1 = some (readRef [["x"]] 0)
      ∧ getCachedResults (setCachedResults ⟨[["x"]], []⟩ "k" 0 0) "k" 100 50
          = (some 1, setCachedResults ⟨[["x"]], []⟩ "k" 0 0) :=
  spec_c1_defensive_copy_on_write_only ⟨[["x"]], []⟩ "k" 0 100 0 50 ["mut"]
    (by decide) (by decide)

/-- Witness for C3's amended statement at the array `['b','a']`. -/
theorem spec_c3_witness :
    (readRef (createCacheKeyArr [["b", "a"]] 0 "/" []).2 0).Perm
        (readRef [["b", "a"]] 0)
      ∧ (createCacheKeyArr (createCacheKeyArr [["b", "a"]] 0 "/" []).2 0 "/"
            []).1
          = (createCacheKeyArr [["b", "a"]] 0 "/" []).1
      ∧ (createCacheKeyArr [["b", "a"]] 0 "/" []).1
          = createCacheKeyOfList (readRef [["b", "a"]] 0) "/" [] :=
  spec_c3_key_pure_but_sorts_in_place [["b", "a"]] 0 "/" [] (by decide)

/-- Witness for C5: the bags `{b: true, a: 's'}` and `{a: 's', b: true}`
(key order swapped) give the same key, and the second call returns the
matcher stored by the first call with the cache state unchanged. -/
theorem spec_c5_witness :
    patternCacheKey "p" [("b", JSVal.vBool true), ("a", JSVal.vStr "s")]
        = patternCacheKey "p" [("a", JSVal.vStr "s"), ("b", JSVal.vBool true)]
      ∧ getCachedPattern (fun _ _ => none)
          (getCachedPattern (fun _ _ => none) ⟨[], 0⟩ "p"
            [("b", JSVal.vBool true), ("a", JSVal.vStr "s")]).2 "p"
          [("a", JSVal.vStr "s"), ("b", JSVal.vBool true)]
        = (.ok 0,
           (getCachedPattern (fun _ _ => none) ⟨[], 0⟩ "p"
             [("b", JSVal.vBool true), ("a", JSVal.vStr "s")]).2) := by
  have h := spec_c5_pattern_key_invariance (fun _ _ => none) ⟨[], 0⟩
    (getCachedPattern (fun _ _ => none) ⟨[], 0⟩ "p"
      [("b", JSVal.vBool true), ("a", JSVal.vStr "s")]).2 "p"
    [("b", JSVal.vBool true), ("a", JSVal.vStr "s")]
    [("a", JSVal.vStr "s"), ("b", JSVal.vBool true)] 0
    (by unfold NodupKeys; decide) (by unfold NodupKeys; decide)
    (Or.inl (by decide)) (by rfl)
  exact ⟨h.1, h.2.1⟩

/-- Witness for C9: on an empty cache with an engine that rejects `"x"`, the
call propagates the error and leaves the state unchanged; with an engine
that accepts, the same call compiles afresh and stores the matcher. -/
theorem spec_c9_witness :
    getCachedPattern (fun _ _ => some "bad") ⟨[], 0⟩ "x" [] = (.error "bad", ⟨[], 0⟩)
      ∧ getCachedPattern (fun _ _ => none) ⟨[], 0⟩ "x" []
          = (.ok 0, ⟨[(patternCacheKey "x" [], 0)], 1⟩) := by
  have h := spec_c9_compile_failure_atomicity (fun _ _ => some "bad")
    (fun _ _ => none) ⟨[], 0⟩ "x" [] "bad" (by rfl) (by rfl) (by rfl)
  exact h

/-- Witness for C10: extending `{a: true}` by `n: null` leaves the key and
the cached matcher unchanged. -/
theorem spec_c10_witness :
    patternCacheKey "p" ([("a", JSVal.vBool true)] ++ [("n", JSVal.vNull)])
        = patternCacheKey "p" [("a", JSVal.vBool true)]
      ∧ getCachedPattern (fun _ _ => none)
          (getCachedPattern (fun _ _ => none) ⟨[], 0⟩ "p"
            [("a", JSVal.vBool true)]).2 "p"
          ([("a", JSVal.vBool true)] ++ [("n", JSVal.vNull)])
        = (.ok 0,
           (getCachedPattern (fun _ _ => none) ⟨[], 0⟩ "p"
             [("a", JSVal.vBool true)]).2) := by
  have h := spec_c10_null_field_ignored (fun _ _ => none) ⟨[], 0⟩
    (getCachedPattern (fun _ _ => none) ⟨[], 0⟩ "p"
      [("a", JSVal.vBool true)]).2 "p" [("a", JSVal.vBool true)] "n" 0
    (by unfold NodupKeys; decide) (by unfold objKeys; decide) (by rfl)
  exact h

/-- Witness for C8 at concrete patterns: `*.js` and the word-only `abc` are
classified simple, and the classifier agrees with the claim's grammar. -/
theorem spec_c8_witness :
    SimplePatternSpec ['*', '.', 'j', 's'] ∧ SimplePatternSpec ['a', 'b', 'c']
      ∧ isSimplePattern ['a', '?'] = false :=
  ⟨(spec_c8_simple_pattern_grammar ['*', '.', 'j', 's']).mp (by decide),
   (spec_c8_simple_pattern_grammar ['a', 'b', 'c']).mp (by decide),
   by decide⟩

end GlobCache
